import Mathlib

/-!
Verification of the metadata table editor (a single-file Vue application,
`src/App.vue`) against its natural-language specification.

The application state and the pure logic of its handlers are shallowly
embedded here:

* a JS row object (one data row of the table, string keys to string cell
  values, keys ordered and unique) is a `Row`, an ordered association list;
* the reactive refs `metadataUrl`, `tableData`, `allColumns`,
  `selectedColumns` form an `AppState`;
* toast notifications are `Notification` values (the `life` duration is
  display-only and omitted);
* network and authentication outcomes are passed to the embedded handlers
  as explicit inputs (`ParseResult`, `UploadEnv`), so each handler becomes a
  pure function from its inputs and the prior state to the new state plus
  its observable effects.
-/

namespace MetadataTableEditor

/-- One data row of the metadata table: a JS object with string-valued
fields, modelled as an ordered association list from field name to cell
value. -/
abbrev Row := List (String × String)

/-- A column definition as built in `loadMetadata`:
`{ field, header }`. -/
structure Column where
  field : String
  header : String
deriving DecidableEq, Repr

/-- The reactive application state: the refs `metadataUrl`, `tableData`,
`allColumns` and `selectedColumns` of `App.vue`. -/
structure AppState where
  metadataUrl : String
  tableData : List Row
  allColumns : List Column
  selectedColumns : List String
deriving DecidableEq, Repr

/-- A toast notification as passed to `toast.add` (severity, summary,
detail; the `life` field is presentation-only and omitted). -/
structure Notification where
  severity : String
  summary : String
  detail : String
deriving DecidableEq, Repr

/-- JS property read `row[k]`: the value at key `k`, `none` when the key
is absent (JS `undefined`). -/
def getField (row : Row) (k : String) : Option String :=
  (row.find? (fun p => p.1 == k)).map Prod.snd

/-- JS `row.hasOwnProperty(k)`. -/
def hasField (row : Row) (k : String) : Bool :=
  row.any (fun p => p.1 == k)

/-- JS property write `row[k] = v`: overwrites the value in place when the
key exists (keeping key order), otherwise appends the new key at the end,
as JS object assignment does. -/
def setField (row : Row) (k v : String) : Row :=
  if hasField row k then row.map (fun p => if p.1 == k then (p.1, v) else p)
  else row ++ [(k, v)]

/-- JS truthiness of a string-or-undefined value: `undefined` and the empty
string are falsy, every other string is truthy. -/
def isTruthy : Option String → Bool
  | some s => !(s == "")
  | none => false

/-- The per-row body of `dataForUpload = tableData.value.map(row => ...)`
in `uploadMetadata` (src/App.vue lines 252-263): copy the row; when both
`accessionVersion` and `SampleID` are truthy set `id` to
`accessionVersion|SampleID`; otherwise, when the copy has no `id`
property, set `id` to the empty string. -/
def buildUploadRow (row : Row) : Row :=
  let accession := getField row "accessionVersion"
  let sample := getField row "SampleID"
  if isTruthy accession && isTruthy sample then
    setField row "id" (accession.getD "" ++ "|" ++ sample.getD "")
  else if hasField row "id" then row
  else setField row "id" ""

/-- ASCII lower-casing of one character, as `String.prototype.toLowerCase`
does on the ASCII range (the only characters compared against `'id'`). -/
def lowerChar (c : Char) : Char :=
  if 'A' ≤ c ∧ c ≤ 'Z' then Char.ofNat (c.toNat + 32) else c

/-- JS `h.toLowerCase()`, character by character. -/
def lowerCase (s : String) : String :=
  ⟨s.data.map lowerChar⟩

/-- `headersForUpload` from `uploadMetadata` (src/App.vue line 266):
`['id', ...originalHeaders.filter(h => h.toLowerCase() !== 'id' && h !== 'submissionId')]`. -/
def headersForUpload (originalHeaders : List String) : List String :=
  "id" :: originalHeaders.filter (fun h => !(lowerCase h == "id") && !(h == "submissionId"))

/-- JS `url.replace(/\/$/, '')`: drop a single trailing slash when
present. -/
def trimTrailingSlash (s : String) : String :=
  if s.data.getLast? = some '/' then ⟨s.data.dropLast⟩ else s

/-- One element of the `/user/groups` response; only `groupId` is read. -/
structure Group where
  groupId : Nat
deriving DecidableEq, Repr

/-- The `revisionUrl` template literal of `uploadMetadata`
(src/App.vue line 250). -/
def revisionUrl (returnUrl organism : String) (groupId : Nat) : String :=
  trimTrailingSlash returnUrl ++ "/" ++ organism ++ "/revise?groupId=" ++
    toString groupId ++ "&dataUseTermsType=OPEN"

/-- The upload-related URL query parameters read by `uploadMetadata`;
`none` models an absent parameter (`urlParams.get` returning `null`). -/
structure UrlParams where
  returnUrl : Option String
  organism : Option String
  inputFasta : Option String
deriving DecidableEq, Repr

/-- The outcomes of the external interactions of `uploadMetadata`, passed
in explicitly: whether `ensureAuthenticated()` resolves to `true`, the
parsed `/user/groups` body when that fetch is `ok` (`none` otherwise),
whether the FASTA fetch is `ok`, and whether the final POST is `ok`. -/
structure UploadEnv where
  authOk : Bool
  groupsResult : Option (List Group)
  fastaOk : Bool
  uploadOk : Bool
deriving DecidableEq, Repr

/-- The observable outcome of one `uploadMetadata` run: the reactive state
and durable store afterwards, the toasts raised by the function body, the
URLs fetched (in program order), whether control reached the
token-acquisition step (`ensureAuthenticated`), and — when the run got far
enough to build them — the submission URL and the serialized payload
(upload header list and upload row set). -/
structure UploadOutcome where
  state : AppState
  storage : Option AppState
  notifications : List Notification
  networkRequests : List String
  tokenAcquisitionAttempted : Bool
  submissionUrl : Option String
  uploadHeaders : Option (List String)
  uploadRows : Option (List Row)
deriving DecidableEq, Repr

/-- Toast raised when `return-url`, `organism` or `input-fasta` is
missing (src/App.vue line 223). -/
def missingParamsNotification : Notification :=
  ⟨"error", "Error", "Missing URL parameters for upload"⟩

/-- Toast raised by the `catch` block of `uploadMetadata`
(src/App.vue line 289). -/
def uploadErrorNotification : Notification :=
  ⟨"error", "Error", "An error occurred during upload"⟩

/-- Toast raised on a successful upload (src/App.vue line 282). -/
def uploadSuccessNotification : Notification :=
  ⟨"success", "Success", "Metadata uploaded successfully"⟩

/-- The `uploadMetadata` handler (src/App.vue lines 216-291) as a pure
function of the query parameters, the external-interaction outcomes, and
the prior reactive state and durable store.  The body never assigns any of
the reactive refs or the store, so `state` and `storage` are passed
through unchanged in every branch.  When `ensureAuthenticated()` resolves
`false` the handler returns with no toast of its own (any toast comes from
`ensureAuthenticated` itself, which is outside this function's body).
`groups[0]` on an empty list throws a `TypeError`, landing in the `catch`
block. -/
def uploadMetadata (params : UrlParams) (env : UploadEnv) (s : AppState)
    (storage : Option AppState) : UploadOutcome :=
  if !(isTruthy params.returnUrl && isTruthy params.organism && isTruthy params.inputFasta) then
    { state := s, storage := storage, notifications := [missingParamsNotification],
      networkRequests := [], tokenAcquisitionAttempted := false,
      submissionUrl := none, uploadHeaders := none, uploadRows := none }
  else
    let returnUrl := params.returnUrl.getD ""
    let organism := params.organism.getD ""
    let fastaUrl := params.inputFasta.getD ""
    if !env.authOk then
      { state := s, storage := storage, notifications := [],
        networkRequests := [], tokenAcquisitionAttempted := true,
        submissionUrl := none, uploadHeaders := none, uploadRows := none }
    else
      let groupsUrl := trimTrailingSlash returnUrl ++ "/user/groups"
      let requests := [groupsUrl, fastaUrl]
      match env.groupsResult, env.fastaOk with
      | some groups, true =>
        match groups.head? with
        | some g =>
          let revUrl := revisionUrl returnUrl organism g.groupId
          let dataForUpload := s.tableData.map buildUploadRow
          let headers := headersForUpload (s.allColumns.map Column.field)
          { state := s, storage := storage,
            notifications :=
              [if env.uploadOk then uploadSuccessNotification else uploadErrorNotification],
            networkRequests := requests ++ [revUrl],
            tokenAcquisitionAttempted := true,
            submissionUrl := some revUrl,
            uploadHeaders := some headers, uploadRows := some dataForUpload }
        | none =>
          { state := s, storage := storage, notifications := [uploadErrorNotification],
            networkRequests := requests, tokenAcquisitionAttempted := true,
            submissionUrl := none, uploadHeaders := none, uploadRows := none }
      | _, _ =>
        { state := s, storage := storage, notifications := [uploadErrorNotification],
          networkRequests := requests, tokenAcquisitionAttempted := true,
          submissionUrl := none, uploadHeaders := none, uploadRows := none }

/-- Outcome of `Papa.parse` on the metadata URL: either the `complete`
callback fires with the parsed row records, or the `error` callback
fires. -/
inductive ParseResult where
  | complete (rows : List Row)
  | failed
deriving DecidableEq, Repr

/-- Toast raised by the `complete` callback of `loadMetadata`
(src/App.vue line 177). -/
def loadSuccessNotification : Notification :=
  ⟨"success", "Success", "Metadata loaded successfully"⟩

/-- Toast raised by the `error` callback of `loadMetadata`
(src/App.vue line 181). -/
def loadErrorNotification : Notification :=
  ⟨"error", "Error", "Failed to load or parse metadata"⟩

/-- The `loadMetadata` handler (src/App.vue lines 163-184) as a pure
function of the parse outcome and the prior state: guard on an empty
`metadataUrl`; on `complete`, replace `tableData` and — only when at least
one row was parsed — rebuild `allColumns` and `selectedColumns` from the
keys of the first row; on `error`, only toast. -/
def loadMetadata (res : ParseResult) (s : AppState) : AppState × List Notification :=
  if s.metadataUrl == "" then (s, [])
  else
    match res with
    | .failed => (s, [loadErrorNotification])
    | .complete rows =>
      match rows with
      | [] => ({ s with tableData := rows }, [loadSuccessNotification])
      | r :: _ =>
        let fields := r.map Prod.fst
        ({ s with tableData := rows,
                  allColumns := fields.map (fun f => ⟨f, f⟩),
                  selectedColumns := fields }, [loadSuccessNotification])

/-- The startup logic of `onMounted` (src/App.vue lines 303-319) restricted
to state restoration: given the durable store (at snapshot granularity —
every stored value is a `persist`ed snapshot, and the JSON codec below
inverts `persist` exactly, see the round-trip theorem) and the
`input-metadata` query parameter, return the new reactive state and
whether `loadMetadata()` (a fresh network load) is invoked. -/
def onMountedState (storage : Option AppState) (inputMetadata : Option String)
    (s : AppState) : AppState × Bool :=
  match storage with
  | some saved => (saved, false)
  | none =>
    if isTruthy inputMetadata then
      ({ s with metadataUrl := inputMetadata.getD "" }, true)
    else (s, false)

/-- The full observable state for the storage-clearing handler: reactive
state, durable store, and the toasts raised so far. -/
structure FullState where
  app : AppState
  storage : Option AppState
  notifications : List Notification
deriving DecidableEq, Repr

/-- Toast raised by `clearLocalStorage` (src/App.vue line 213). -/
def clearStorageNotification : Notification :=
  ⟨"warn", "Local Storage Cleared", "Please reload the page to see the changes"⟩

/-- The `clearLocalStorage` handler (src/App.vue lines 211-214):
`localStorage.removeItem(...)` plus a warning toast.  No reactive ref is
assigned, so the deep watcher does not fire and nothing is re-persisted. -/
def clearLocalStorage (st : FullState) : FullState :=
  { st with storage := none,
            notifications := st.notifications ++ [clearStorageNotification] }

/-- The fragment of the JSON value grammar produced by
`JSON.stringify` on an Application Snapshot: strings, arrays and objects
(ordered field lists). -/
inductive Json where
  | str (s : String)
  | arr (items : List Json)
  | obj (fields : List (String × Json))

/-- JS field access `parsed[k]` on a parsed JSON object. -/
def jsonLookup (fields : List (String × Json)) (k : String) : Option Json :=
  (fields.find? (fun p => p.1 == k)).map Prod.snd

/-- `JSON.stringify` of one row object: each cell becomes a string
field. -/
def encodeRow (r : Row) : Json :=
  .obj (r.map (fun p => (p.1, .str p.2)))

/-- `JSON.stringify` of one column definition `{ field, header }`. -/
def encodeColumn (c : Column) : Json :=
  .obj [("field", .str c.field), ("header", .str c.header)]

/-- The `state` object built by the deep watcher (src/App.vue lines
294-299) and handed to `JSON.stringify`: `{ tableData, allColumns,
selectedColumns, metadataUrl }`. -/
def encodeState (s : AppState) : Json :=
  .obj [("tableData", .arr (s.tableData.map encodeRow)),
        ("allColumns", .arr (s.allColumns.map encodeColumn)),
        ("selectedColumns", .arr (s.selectedColumns.map Json.str)),
        ("metadataUrl", .str s.metadataUrl)]

/-- Reading the string-valued fields of a parsed row object back into a
row record. -/
def decodeCells : List (String × Json) → Option Row
  | [] => some []
  | (k, .str v) :: rest => (decodeCells rest).map (fun r => (k, v) :: r)
  | _ => none

/-- Reading one parsed JSON value back as a row record. -/
def decodeRow : Json → Option Row
  | .obj fields => decodeCells fields
  | _ => none

/-- Reading a parsed JSON array back as a list of row records. -/
def decodeRowList : List Json → Option (List Row)
  | [] => some []
  | j :: rest =>
    match decodeRow j, decodeRowList rest with
    | some r, some rs => some (r :: rs)
    | _, _ => none

/-- Reading one parsed JSON value back as a column definition, through
its `field` and `header` properties. -/
def decodeColumn : Json → Option Column
  | .obj fields =>
    match jsonLookup fields "field", jsonLookup fields "header" with
    | some (.str f), some (.str h) => some ⟨f, h⟩
    | _, _ => none
  | _ => none

/-- Reading a parsed JSON array back as a list of column definitions. -/
def decodeColumnList : List Json → Option (List Column)
  | [] => some []
  | j :: rest =>
    match decodeColumn j, decodeColumnList rest with
    | some c, some cs => some (c :: cs)
    | _, _ => none

/-- Reading a parsed JSON array back as a list of strings. -/
def decodeStringList : List Json → Option (List String)
  | [] => some []
  | .str s :: rest => (decodeStringList rest).map (fun l => s :: l)
  | _ => none

/-- The restore step of `onMounted` (src/App.vue lines 307-311) applied to
a parsed JSON value: read `tableData`, `allColumns`, `selectedColumns` and
`metadataUrl` back into an Application Snapshot. -/
def decodeState : Json → Option AppState
  | .obj fields =>
    match jsonLookup fields "tableData", jsonLookup fields "allColumns",
          jsonLookup fields "selectedColumns", jsonLookup fields "metadataUrl" with
    | some (.arr rows), some (.arr cols), some (.arr sel), some (.str url) =>
      match decodeRowList rows, decodeColumnList cols, decodeStringList sel with
      | some r, some c, some s => some ⟨url, r, c, s⟩
      | _, _, _ => none
    | _, _, _, _ => none
  | _ => none

/-! ## Association-list lemmas for JS object reads and writes -/

theorem getField_cons_pos (q : String × String) (l : Row) (k : String)
    (h : (q.1 == k) = true) : getField (q :: l) k = some q.2 := by
  simp [getField, List.find?, h]

theorem getField_cons_neg (q : String × String) (l : Row) (k : String)
    (h : (q.1 == k) = false) : getField (q :: l) k = getField l k := by
  simp [getField, List.find?, h]

theorem getField_map_replace (row : Row) (k v : String) (h : hasField row k = true) :
    getField (row.map (fun p => if p.1 == k then (p.1, v) else p)) k = some v := by
  induction row with
  | nil => simp [hasField] at h
  | cons p rest ih =>
    simp only [List.map_cons]
    by_cases hp : (p.1 == k) = true
    · rw [if_pos hp]
      exact getField_cons_pos (p.1, v) _ k hp
    · rw [Bool.not_eq_true] at hp
      rw [if_neg (by simp [hp]), getField_cons_neg p _ k hp]
      apply ih
      simp only [hasField, List.any_cons, hp, Bool.false_or] at h
      exact h

theorem getField_append_right (row : Row) (k v : String) (h : hasField row k = false) :
    getField (row ++ [(k, v)]) k = some v := by
  induction row with
  | nil =>
    rw [List.nil_append]
    exact getField_cons_pos (k, v) [] k (by simp)
  | cons p rest ih =>
    simp only [hasField, List.any_cons, Bool.or_eq_false_iff] at h
    rw [List.cons_append, getField_cons_neg p _ k h.1]
    exact ih (by simp [hasField, h.2])

theorem getField_setField (row : Row) (k v : String) :
    getField (setField row k v) k = some v := by
  unfold setField
  by_cases h : hasField row k
  · simpa [h] using getField_map_replace row k v h
  · simpa [h] using getField_append_right row k v (by simpa using h)

/-! ## Claims -/

/-- C1: for every row record, the upload row-building step yields a copy
whose `id` field is `accessionVersion|SampleID` when both source fields
are present and non-empty; when either is missing or empty, an existing
`id` field is left unchanged (the whole row is returned as is), and a row
without an `id` field gets `id` set to the empty string. -/
theorem buildUploadRow_id_synthesis (row : Row) :
    (∀ a b, getField row "accessionVersion" = some a → getField row "SampleID" = some b →
      a ≠ "" → b ≠ "" → getField (buildUploadRow row) "id" = some (a ++ "|" ++ b)) ∧
    ((isTruthy (getField row "accessionVersion") &&
        isTruthy (getField row "SampleID")) = false →
      (hasField row "id" = true → buildUploadRow row = row) ∧
      (hasField row "id" = false → getField (buildUploadRow row) "id" = some "")) := by
  constructor
  · intro a b ha hb hna hnb
    simp [buildUploadRow, ha, hb, isTruthy, hna, hnb, getField_setField]
  · intro hf
    refine ⟨fun hid => ?_, fun hid => ?_⟩
    · simp [buildUploadRow, hf, hid]
    · simp [buildUploadRow, hf, hid, getField_setField]

theorem buildUploadRow_id_synthesis_witness :
    getField (buildUploadRow [("accessionVersion", "A.1"), ("SampleID", "S1")]) "id" =
      some "A.1|S1" ∧
    buildUploadRow [("id", "old"), ("SampleID", "S1")] = [("id", "old"), ("SampleID", "S1")] ∧
    getField (buildUploadRow [("SampleID", "S1")]) "id" = some "" := by
  refine ⟨(buildUploadRow_id_synthesis _).1 "A.1" "S1" rfl rfl (by decide) (by decide),
    ((buildUploadRow_id_synthesis _).2 (by decide)).1 (by decide),
    ((buildUploadRow_id_synthesis _).2 (by decide)).2 (by decide)⟩

/-- C2: the upload header list is the literal `id` followed by the
original fields in order, with fields whose lower-cased form is `id` and
fields exactly equal to `submissionId` removed; on
`["foo", "id", "submissionId", "bar"]` it is exactly
`["id", "foo", "bar"]`. -/
theorem headersForUpload_contract (fields : List String) :
    headersForUpload fields =
      "id" :: fields.filter (fun h => decide (¬ lowerCase h = "id" ∧ ¬ h = "submissionId")) ∧
    headersForUpload ["foo", "id", "submissionId", "bar"] = ["id", "foo", "bar"] := by
  refine ⟨?_, by decide⟩
  unfold headersForUpload
  congr 1
  apply List.filter_congr
  intro h _
  by_cases h1 : lowerCase h = "id" <;> by_cases h2 : h = "submissionId" <;> simp [h1, h2]

/-- C3: when the upload run reaches URL construction (parameters present
and non-empty, authentication succeeds, both fetches succeed, and the
group list has a first element), the submission URL is the return URL
with a single trailing slash removed, followed by
`/{organism}/revise?groupId={groupId}&dataUseTermsType=OPEN`, with the
group id taken from the first group. -/
theorem uploadMetadata_submissionUrl_construction (params : UrlParams) (env : UploadEnv)
    (s : AppState) (storage : Option AppState) (ru org fasta : String)
    (groups : List Group) (g : Group)
    (hru : params.returnUrl = some ru) (hor : params.organism = some org)
    (hfa : params.inputFasta = some fasta)
    (hru0 : ru ≠ "") (hor0 : org ≠ "") (hfa0 : fasta ≠ "")
    (hauth : env.authOk = true) (hg : env.groupsResult = some groups)
    (hfok : env.fastaOk = true) (hhead : groups.head? = some g) :
    (uploadMetadata params env s storage).submissionUrl =
      some ((if ru.data.getLast? = some '/' then (⟨ru.data.dropLast⟩ : String) else ru) ++
        "/" ++ org ++ "/revise?groupId=" ++ toString g.groupId ++ "&dataUseTermsType=OPEN") := by
  have hru' : (ru == "") = false := by simp [hru0]
  have hor' : (org == "") = false := by simp [hor0]
  have hfa' : (fasta == "") = false := by simp [hfa0]
  simp [uploadMetadata, hru, hor, hfa, isTruthy, hru', hor', hfa', hauth, hg, hfok, hhead,
    revisionUrl, trimTrailingSlash]

theorem uploadMetadata_submissionUrl_construction_witness :
    (uploadMetadata ⟨some "https://api.example/", some "flu", some "https://files.example/f.fasta"⟩
      ⟨true, some [⟨7⟩], true, true⟩ ⟨"", [], [], []⟩ none).submissionUrl =
      some "https://api.example/flu/revise?groupId=7&dataUseTermsType=OPEN" := by
  rw [uploadMetadata_submissionUrl_construction _ _ _ _ "https://api.example/" "flu"
    "https://files.example/f.fasta" [⟨7⟩] ⟨7⟩ rfl rfl rfl (by decide) (by decide) (by decide)
    rfl rfl rfl rfl]
  rfl

/-- C4: when `return-url`, `organism` or `input-fasta` is absent, the
upload handler raises exactly the missing-parameters error toast and
returns before token acquisition and before any network request, with the
reactive state and the durable store unchanged. -/
theorem uploadMetadata_missing_params (params : UrlParams) (env : UploadEnv)
    (s : AppState) (storage : Option AppState)
    (h : params.returnUrl = none ∨ params.organism = none ∨ params.inputFasta = none) :
    uploadMetadata params env s storage =
      { state := s, storage := storage, notifications := [missingParamsNotification],
        networkRequests := [], tokenAcquisitionAttempted := false,
        submissionUrl := none, uploadHeaders := none, uploadRows := none } := by
  rcases h with h | h | h <;> simp [uploadMetadata, h, isTruthy]

theorem uploadMetadata_missing_params_witness :
    uploadMetadata ⟨some "https://api.example", some "flu", none⟩
      ⟨true, some [⟨7⟩], true, true⟩ ⟨"u", [], [], []⟩ none =
      { state := ⟨"u", [], [], []⟩, storage := none,
        notifications := [missingParamsNotification],
        networkRequests := [], tokenAcquisitionAttempted := false,
        submissionUrl := none, uploadHeaders := none, uploadRows := none } :=
  uploadMetadata_missing_params _ _ _ _ (Or.inr (Or.inr rfl))

/-- C9: the upload handler never mutates the in-memory table rows: in
every branch (missing parameters, failed authentication, failed fetches,
empty group list, failed or successful POST) the resulting `tableData` is
the prior `tableData`, so no synthesized `id` field leaks into the
in-memory rows. -/
theorem uploadMetadata_preserves_tableData (params : UrlParams) (env : UploadEnv)
    (s : AppState) (storage : Option AppState) :
    (uploadMetadata params env s storage).state.tableData = s.tableData := by
  unfold uploadMetadata
  repeat' split
  all_goals rfl

/-- C7: when the table-load parse fails (and a source URL was set, so the
parse was attempted), the handler raises the load-error toast and the
state — rows, columns, selection and URL — is exactly the prior state. -/
theorem loadMetadata_failed_frame (s : AppState) (h : ¬ s.metadataUrl = "") :
    loadMetadata .failed s = (s, [loadErrorNotification]) := by
  simp [loadMetadata, h]

theorem loadMetadata_failed_frame_witness :
    loadMetadata .failed ⟨"https://files.example/m.tsv", [], [], []⟩ =
      (⟨"https://files.example/m.tsv", [], [], []⟩, [loadErrorNotification]) :=
  loadMetadata_failed_frame _ (by decide)

/-- C10: a successful load with zero rows replaces `tableData` by the
empty list and keeps the prior column definitions and visible-column
selection; a successful load with at least one row sets the column
definitions to the keys of the first row (field and header both equal to
the key) and the selection to all of those fields. -/
theorem loadMetadata_complete_columns (s : AppState) (h : ¬ s.metadataUrl = "") :
    loadMetadata (.complete []) s =
      ({ s with tableData := [] }, [loadSuccessNotification]) ∧
    ∀ (r : Row) (rest : List Row),
      loadMetadata (.complete (r :: rest)) s =
        ({ s with tableData := r :: rest,
                  allColumns := (r.map Prod.fst).map (fun f => ⟨f, f⟩),
                  selectedColumns := r.map Prod.fst }, [loadSuccessNotification]) := by
  constructor
  · simp [loadMetadata, h]
  · intro r rest
    simp [loadMetadata, h]

theorem loadMetadata_complete_columns_witness :
    loadMetadata (.complete []) ⟨"https://files.example/m.tsv", [[("a", "1")]], [⟨"a", "a"⟩], ["a"]⟩ =
      (⟨"https://files.example/m.tsv", [], [⟨"a", "a"⟩], ["a"]⟩, [loadSuccessNotification]) ∧
    loadMetadata (.complete [[("x", "1"), ("y", "2")]])
        ⟨"https://files.example/m.tsv", [], [], []⟩ =
      (⟨"https://files.example/m.tsv", [[("x", "1"), ("y", "2")]],
        [⟨"x", "x"⟩, ⟨"y", "y"⟩], ["x", "y"]⟩, [loadSuccessNotification]) :=
  ⟨(loadMetadata_complete_columns _ (by decide)).1,
   (loadMetadata_complete_columns _ (by decide)).2 [("x", "1"), ("y", "2")] []⟩

/-- C6: at startup, a present persisted snapshot fully replaces the
in-memory state and no fresh load is triggered; with no persisted
snapshot, a non-empty `input-metadata` parameter is copied into
`metadataUrl` and a fresh load is triggered, and with neither the state
is untouched and nothing is loaded. -/
theorem onMounted_restore_preference (saved : AppState) (im : Option String) (s : AppState) :
    onMountedState (some saved) im s = (saved, false) ∧
    (∀ u, ¬ u = "" → onMountedState none (some u) s = ({ s with metadataUrl := u }, true)) ∧
    onMountedState none none s = (s, false) := by
  refine ⟨rfl, fun u hu => ?_, rfl⟩
  simp [onMountedState, isTruthy, hu]

theorem onMounted_restore_preference_witness :
    onMountedState (some ⟨"u", [[("a", "1")]], [⟨"a", "a"⟩], ["a"]⟩) (some "https://m.tsv")
        ⟨"", [], [], []⟩ =
      (⟨"u", [[("a", "1")]], [⟨"a", "a"⟩], ["a"]⟩, false) ∧
    onMountedState none (some "https://m.tsv") ⟨"", [], [], []⟩ =
      (⟨"https://m.tsv", [], [], []⟩, true) :=
  ⟨(onMounted_restore_preference _ (some "https://m.tsv") _).1,
   (onMounted_restore_preference ⟨"", [], [], []⟩ none _).2.1 "https://m.tsv" (by decide)⟩

/-- C8: clearing local storage deletes the persisted snapshot and leaves
the whole in-memory application state unchanged, so until the next reload
the store (now empty) and the in-memory state can disagree. -/
theorem clearLocalStorage_frame (st : FullState) :
    (clearLocalStorage st).storage = none ∧ (clearLocalStorage st).app = st.app :=
  ⟨rfl, rfl⟩

/-! ## Persistence round-trip lemmas -/

theorem decodeCells_encode (r : Row) :
    decodeCells (r.map (fun p => (p.1, Json.str p.2))) = some r := by
  induction r with
  | nil => rfl
  | cons p rest ih => simp [decodeCells, ih]

theorem decodeRow_encodeRow (r : Row) : decodeRow (encodeRow r) = some r := by
  simp [decodeRow, encodeRow, decodeCells_encode]

theorem decodeRowList_encode (rows : List Row) :
    decodeRowList (rows.map encodeRow) = some rows := by
  induction rows with
  | nil => rfl
  | cons r rest ih => simp [decodeRowList, decodeRow_encodeRow, ih]

theorem decodeColumn_encodeColumn (c : Column) : decodeColumn (encodeColumn c) = some c := rfl

theorem decodeColumnList_encode (cols : List Column) :
    decodeColumnList (cols.map encodeColumn) = some cols := by
  induction cols with
  | nil => rfl
  | cons c rest ih => simp [decodeColumnList, decodeColumn_encodeColumn, ih]

theorem decodeStringList_encode (l : List String) :
    decodeStringList (l.map Json.str) = some l := by
  induction l with
  | nil => rfl
  | cons a rest ih => simp [decodeStringList, ih]

/-- C5: persisting an Application Snapshot (serializing the watcher's
`state` object) and then restoring it (reading the four fields back from
the parsed value) yields exactly the original snapshot. -/
theorem persist_restore_roundtrip (s : AppState) :
    decodeState (encodeState s) = some s := by
  obtain ⟨url, rows, cols, sel⟩ := s
  simp [encodeState, decodeState, jsonLookup, List.find?,
    decodeRowList_encode, decodeColumnList_encode, decodeStringList_encode]

end MetadataTableEditor
